import Mathlib

/-!
Shallow embedding of the StarShooter data-preparation module
(src/centered-on-asteroid/utils.py) and proofs about the claims of its
specification.

The module has three functions:
  * get_dataframe : reads two lookup CSVs, injects a binary label column,
    concatenates them and groups the rows by mover_id (pandas groupby,
    which sorts the group keys and preserves the original row order inside
    each group);
  * get_dataset : iterates the mover groups, loads the four grayscale
    frames of each mover, validates count / existence / shape, stacks the
    frames and aggregates everything into a TensorDataset plus the list of
    surviving mover ids;
  * get_loaders : splits the dataset 70/30 (torch random_split with
    fractional lengths) and wraps the training part in a DataLoader.

CSV contents are modelled as lists of rows, the image directory as a
function from path to optional decoded image, torch tensors as a shape
together with the flattened contents, and every Python exception that the
source lets escape as an Option-level failure.
-/

namespace StarShooter

/-- A PIL image after Image.open followed by convert to mode L: a grayscale
raster of the given height and width.  The pixel values are kept as the raw
8-bit integers; torchvision's ToTensor rescales them by 1/255, a value-level
bijection that no claim observes, so the contents stay integral here. -/
structure PILImage where
  height : Nat
  width : Nat
  pixels : List Int
deriving DecidableEq

/-- A torch tensor, modelled as its shape together with its flattened,
row-major contents. -/
structure Tensor where
  shape : List Nat
  data : List Int
deriving DecidableEq

/-- torchvision.transforms.ToTensor applied to a mode-L PIL image: a tensor
of shape (1, H, W) whose contents are the image's pixels. -/
def toTensor (img : PILImage) : Tensor :=
  ⟨[1, img.height, img.width], img.pixels⟩

/-- Tensor.view: reinterpret the contents under a new shape.  torch checks
that the element counts agree; the only call site in the source is
view(1, 1, *t.shape), for which 1 * 1 * prod t.shape = prod t.shape holds
trivially, so the check is omitted from the model. -/
def Tensor.view (t : Tensor) (ns : List Nat) : Tensor :=
  ⟨ns, t.data⟩

/-- Contents of torch.cat ts (dim := d): the concatenation interleaves, for
every index of the dimensions before d, the corresponding slice of each
input tensor. -/
def catData (ts : List Tensor) (d : Nat) : List Int :=
  match ts with
  | [] => []
  | t0 :: _ =>
    (List.range ((t0.shape.take d).prod)).flatMap (fun o =>
      ts.flatMap (fun t =>
        ((t.data.drop (o * (t.shape.drop d).prod)).take ((t.shape.drop d).prod))))

/-- torch.cat along dimension d.  torch raises a RuntimeError when the list
is empty, when d is out of range, or when the shapes disagree anywhere
except at dimension d; those raises are modelled as none. -/
def torch_cat (ts : List Tensor) (d : Nat) : Option Tensor :=
  match ts with
  | [] => none
  | t0 :: _ =>
    if (d < t0.shape.length ∧ ∀ t ∈ ts, t.shape.length = t0.shape.length ∧
          ∀ i, i < t0.shape.length → i ≠ d → t.shape.getD i 0 = t0.shape.getD i 0)
    then some ⟨t0.shape.set d ((ts.map (fun t => t.shape.getD d 0)).sum), catData ts d⟩
    else none

/-- A row of one of the two lookup CSVs: the columns the source reads. -/
structure CsvRow where
  mover_id : String
  file_name : String
deriving DecidableEq

/-- A row of the pooled DataFrame after the label column was injected. -/
structure Row where
  mover_id : String
  file_name : String
  label : Int
deriving DecidableEq

instance : Inhabited Row := ⟨⟨"", "", 0⟩⟩

/-- The image directory: maps a path to the decoded grayscale image, or none
when opening raises FileNotFoundError (the only exception the source
catches; other decode failures are outside every claim). -/
def FileSys : Type := String → Option PILImage

/-- Insertion of a key into a strictly ascending list of keys, keeping it
strictly ascending; used to model the sorted unique group keys that pandas
groupby iterates over. -/
def insertKey (k : String) : List String → List String
  | [] => [k]
  | q :: ks =>
    if k < q then k :: q :: ks
    else if k = q then q :: ks
    else q :: insertKey k ks

/-- The sorted list of distinct keys occurring in l. -/
def sortedKeys (l : List String) : List String :=
  l.foldr insertKey []

/-- get_dataframe: read the two lookup CSVs, inject label 1 into the rows of
movers_images_lookup.csv and label 0 into the rows of
rejected_movers_images_lookup.csv, concatenate, and group by mover_id.
pandas groupby with its default sort=True iterates the groups in ascending
key order and keeps the concatenated frame's row order inside each group,
which the filter over the pooled list reproduces. -/
def get_dataframe (real_movers bogus_movers : List CsvRow) :
    List (String × List Row) :=
  let real' : List Row := real_movers.map (fun r => ⟨r.mover_id, r.file_name, 1⟩)
  let bogus' : List Row := bogus_movers.map (fun r => ⟨r.mover_id, r.file_name, 0⟩)
  let movers : List Row := real' ++ bogus'
  (sortedKeys (movers.map (fun r => r.mover_id))).map
    (fun k => (k, movers.filter (fun r => decide (r.mover_id = k))))

/-- The diagnostic printed when an image file is missing. -/
def notFoundMsg (mover_id path : String) : String :=
  "Image of " ++ mover_id ++ " not found: " ++ path

/-- The diagnostic printed when a mover's group is not 4 rows long. -/
def skipMsg (mover_id : String) (n : Nat) : String :=
  "Skipping " ++ mover_id ++ " sequence with length: " ++ toString n

/-- The inner row loop of get_dataset: open each image, convert to a
tensor, check the shape, view as (1, 1, 1, H, W) and accumulate.  The
result pairs the printed diagnostics with some frames when the loop runs to
completion (the for-else branch fires) and none when a break occurred:
either the file was missing (with a diagnostic) or the shape check failed
(silently). -/
def loadFrames (fs : FileSys) (path_to_images : String) (image_shape : Nat × Nat)
    (mover_id : String) : List Row → List String × Option (List Tensor)
  | [] => ([], some [])
  | r :: rs =>
    match fs (path_to_images ++ r.file_name) with
    | none => ([notFoundMsg mover_id (path_to_images ++ r.file_name)], none)
    | some img =>
      if (toTensor img).shape.getD 0 0 ≠ image_shape.1 ∨
          (toTensor img).shape.getD 1 0 ≠ image_shape.2 then
        ([], none)
      else
        ((loadFrames fs path_to_images image_shape mover_id rs).1,
         ((loadFrames fs path_to_images image_shape mover_id rs).2).map
           (fun l => ((toTensor img).view (1 :: 1 :: (toTensor img).shape)) :: l))

/-- The accumulators of get_dataset's main loop. -/
structure LoopState where
  x_tensors : List Tensor
  y_hat_tensors : List Tensor
  mover_ids : List String
deriving DecidableEq

/-- The label of a group, read as iloc 0 of its label column.  iloc 0
raises on an empty group, but every call is guarded by the length-4 check,
so the default value of headI is never observable. -/
def labelOf (rows : List Row) : Int :=
  rows.headI.label

/-- One iteration of get_dataset's mover loop.  Returns the diagnostics it
printed, and none exactly when an uncaught exception escapes (the inner
torch.cat raising on mismatched frame shapes); some st with the input state
unchanged models a skipped mover (continue, or break followed by the
for-else branch not firing). -/
def processMover (fs : FileSys) (path_to_images : String) (image_shape : Nat × Nat)
    (g : String × List Row) (st : LoopState) : List String × Option LoopState :=
  if g.2.length ≠ 4 then ([skipMsg g.1 g.2.length], some st)
  else
    match (loadFrames fs path_to_images image_shape g.1 g.2).2 with
    | none => ((loadFrames fs path_to_images image_shape g.1 g.2).1, some st)
    | some tensors =>
      match torch_cat tensors 2 with
      | none => ((loadFrames fs path_to_images image_shape g.1 g.2).1, none)
      | some xt =>
        ((loadFrames fs path_to_images image_shape g.1 g.2).1,
         some ⟨st.x_tensors ++ [xt],
               st.y_hat_tensors ++ [Tensor.mk [1, 1] [labelOf g.2]],
               st.mover_ids ++ [g.1]⟩)

/-- get_dataset's loop over the mover groups, threading the accumulators;
none propagates an uncaught exception, cutting the loop short. -/
def get_dataset_loop (fs : FileSys) (path_to_images : String)
    (image_shape : Nat × Nat) :
    List (String × List Row) → LoopState → List String × Option LoopState
  | [], st => ([], some st)
  | g :: gs, st =>
    match (processMover fs path_to_images image_shape g st).2 with
    | none => ((processMover fs path_to_images image_shape g st).1, none)
    | some st1 =>
      ((processMover fs path_to_images image_shape g st).1 ++
         (get_dataset_loop fs path_to_images image_shape gs st1).1,
       (get_dataset_loop fs path_to_images image_shape gs st1).2)

/-- torch.utils.data.TensorDataset over the stacked inputs and labels. -/
structure TensorDataset where
  x : Tensor
  y : Tensor
deriving DecidableEq

/-- TensorDataset asserts that all tensors agree in size(0); the assertion
failure is modelled as none. -/
def tensorDataset (x y : Tensor) : Option TensorDataset :=
  if x.shape.getD 0 0 = y.shape.getD 0 0 then some ⟨x, y⟩ else none

/-- The number of samples of a TensorDataset: its tensors' size(0). -/
def datasetLen (ds : TensorDataset) : Nat :=
  ds.x.shape.getD 0 0

/-- Lines 83 to 85 of the source: concatenate the accumulated inputs and
labels along dimension 0 and build the TensorDataset; with an empty
accumulator torch.concat raises, which propagates. -/
def assemble (st : LoopState) : Option (TensorDataset × List String) :=
  (torch_cat st.x_tensors 0).bind (fun x =>
    (torch_cat st.y_hat_tensors 0).bind (fun y =>
      (tensorDataset x y).map (fun ds => (ds, st.mover_ids))))

/-- get_dataset: run the mover loop from empty accumulators, then
concatenate and package.  The first component collects everything printed,
the second is none exactly when the Python function raises.  The source's
default image_shape is (30, 30). -/
def get_dataset (movers_agg : List (String × List Row)) (fs : FileSys)
    (path_to_images : String) (image_shape : Nat × Nat) :
    List String × Option (TensorDataset × List String) :=
  ((get_dataset_loop fs path_to_images image_shape movers_agg ⟨[], [], []⟩).1,
   ((get_dataset_loop fs path_to_images image_shape movers_agg ⟨[], [], []⟩).2).bind
     assemble)

/-- Whether the file of a row opens successfully. -/
def rowFound (fs : FileSys) (path_to_images : String) (r : Row) : Bool :=
  (fs (path_to_images ++ r.file_name)).isSome

/-- Whether the file of a row opens successfully and its tensor passes the
source's shape test (dimension 0 against image_shape.1, dimension 1 against
image_shape.2). -/
def rowShapeOk (fs : FileSys) (path_to_images : String) (image_shape : Nat × Nat)
    (r : Row) : Bool :=
  match fs (path_to_images ++ r.file_name) with
  | none => false
  | some img =>
    decide (¬((toTensor img).shape.getD 0 0 ≠ image_shape.1 ∨
              (toTensor img).shape.getD 1 0 ≠ image_shape.2))

/-- A mover group passes all of get_dataset's checks: exactly 4 rows, every
image opens, every frame passes the shape test. -/
def moverPasses (fs : FileSys) (path_to_images : String) (image_shape : Nat × Nat)
    (g : String × List Row) : Bool :=
  g.2.length == 4 &&
    ((loadFrames fs path_to_images image_shape g.1 g.2).2).isSome

/-- One round-robin pass of torch random_split's remainder distribution:
subset_lengths at position i modulo the number of splits is incremented
once per leftover item. -/
def addOneAt (l : List Nat) (i : Nat) : List Nat :=
  l.set i (l.getD i 0 + 1)

/-- The remainder distribution loop of torch random_split. -/
def distributeRem (l : List Nat) : Nat → List Nat
  | 0 => l
  | r + 1 => addOneAt (distributeRem l r) (r % l.length)

/-- The subset sizes computed by torch.utils.data.random_split when called
with fractional lengths, as the source does.  The float fractions are
modelled as exact rationals (for the fractions the claims use, 7/10 and
3/10, the IEEE double computation agrees with the rational one).  torch
takes the fractional path when the fractions sum to 1 and raises when one
of them lies outside the unit interval or when the final sizes do not sum
to the dataset length; the raises are modelled as none.  Under the guards
the floors are nonnegative and sum to at most n, so the natural subtraction
computing the remainder agrees with Python's. -/
def random_split_sizes (n : Nat) (fracs : List ℚ) : Option (List Nat) :=
  if (fracs.sum = 1 ∧ ∀ f ∈ fracs, 0 ≤ f ∧ f ≤ 1) then
    let base := fracs.map (fun f => (⌊f * (n : ℚ)⌋).toNat)
    let lens := distributeRem base (n - base.sum)
    if lens.sum = n then some lens else none
  else none

/-- The sizes of the training and validation subsets produced by
get_loaders on a dataset of n samples.  The unseeded random permutation,
the DataLoader's shuffling and its batching affect no size, so only the
sizes are modelled; the source's default split is (0.7, 0.3). -/
def get_loaders_sizes (n : Nat) (split : ℚ × ℚ) : Option (Nat × Nat) :=
  match random_split_sizes n [split.1, split.2] with
  | some (a :: b :: []) => some (a, b)
  | _ => none

/-!
Concrete fixtures used by the witnesses and counterexamples: one mover with
four existing 2 x 2 grayscale frames.
-/

/-- A 2 x 2 grayscale image, all pixels zero. -/
def img2 : PILImage := ⟨2, 2, [0, 0, 0, 0]⟩

/-- Lookup rows for the fixture mover. -/
def exCsv : List CsvRow :=
  [⟨"m1", "a.png"⟩, ⟨"m1", "b.png"⟩, ⟨"m1", "c.png"⟩, ⟨"m1", "d.png"⟩]

/-- The labelled rows of the fixture mover. -/
def exRows : List Row :=
  [⟨"m1", "a.png", 1⟩, ⟨"m1", "b.png", 1⟩, ⟨"m1", "c.png", 1⟩, ⟨"m1", "d.png", 1⟩]

/-- An image directory holding exactly the fixture mover's four frames. -/
def exFs : FileSys := fun path =>
  if path = "a.png" ∨ path = "b.png" ∨ path = "c.png" ∨ path = "d.png" then some img2
  else none

/-- The fixture grouping: a single group of four rows. -/
def exDf : List (String × List Row) := [("m1", exRows)]

/-- The dataset the model produces from the fixture under image_shape (1, 2):
a five-dimensional input stack and a (1, 1) label tensor. -/
def exDs : TensorDataset :=
  ⟨⟨[1, 1, 4, 2, 2], List.replicate 16 0⟩, ⟨[1, 1], [1]⟩⟩

/-!
Helper lemmas about the embedding.
-/

/-- Every frame returned by a completed inner loop is a view of the form
(1, 1, H, W) stretched to five entries, so its shape starts with 1, 1. -/
lemma loadFrames_some_shapes (fs : FileSys) (p : String) (s : Nat × Nat)
    (m : String) :
    ∀ (rows : List Row) (ts : List Tensor),
      (loadFrames fs p s m rows).2 = some ts →
      ∀ t ∈ ts, ∃ sh, t.shape = 1 :: 1 :: sh := by
  intro rows
  induction rows with
  | nil =>
    intro ts h
    simp only [loadFrames, Option.some.injEq] at h
    subst h
    simp
  | cons r rs ih =>
    intro ts h
    simp only [loadFrames] at h
    split at h
    · simp at h
    · rename_i img heq
      split at h
      · simp at h
      · simp only [Option.map_eq_some'] at h
        obtain ⟨l, hl, rfl⟩ := h
        intro t ht
        rcases List.mem_cons.mp ht with rfl | ht
        · exact ⟨(toTensor img).shape, rfl⟩
        · exact ih l hl t ht

/-- When the inner loop completes on a nonempty group, the first frame
passed the shape test, whose dimension-0 comparison forces image_shape.1 to
be the channel count 1. -/
lemma loadFrames_some_fst_eq_one (fs : FileSys) (p : String) (s : Nat × Nat)
    (m : String) (r : Row) (rs : List Row) (ts : List Tensor)
    (h : (loadFrames fs p s m (r :: rs)).2 = some ts) : s.1 = 1 := by
  simp only [loadFrames] at h
  split at h
  · simp at h
  · rename_i img heq
    split at h
    · simp at h
    · rename_i hc
      push_neg at hc
      exact hc.1.symm

/-- Inversion of a successful torch.cat: the input list is nonempty, the
dimension is in range, and the output shape updates the cat dimension to
the sum of the inputs' extents there. -/
lemma torch_cat_eq_some {ts : List Tensor} {d : Nat} {x : Tensor}
    (h : torch_cat ts d = some x) :
    ∃ t0 rest, ts = t0 :: rest ∧ d < t0.shape.length ∧
      x.shape = t0.shape.set d ((ts.map (fun t => t.shape.getD d 0)).sum) := by
  cases ts with
  | nil => simp [torch_cat] at h
  | cons t0 rest =>
    simp only [torch_cat] at h
    split at h
    case isTrue hc =>
      refine ⟨t0, rest, rfl, hc.1, ?_⟩
      cases h
      rfl
    case isFalse hc => cases h

/-- Updating index 0 of a nonempty list updates its head. -/
lemma getD_set_zero {l : List Nat} (h : 0 < l.length) (v : Nat) :
    (l.set 0 v).getD 0 0 = v := by
  cases l with
  | nil => cases h
  | cons a l => rfl

/-- The per-mover stack (torch.cat along dimension 2 of frames shaped
1 :: 1 :: _) keeps extent 1 in dimension 0. -/
lemma cat_dim2_head_one {tensors : List Tensor} {xt : Tensor}
    (hsh : ∀ t ∈ tensors, ∃ sh, t.shape = 1 :: 1 :: sh)
    (h : torch_cat tensors 2 = some xt) : xt.shape.getD 0 0 = 1 := by
  obtain ⟨t0, rest, rfl, hd, hx⟩ := torch_cat_eq_some h
  obtain ⟨sh, h0⟩ := hsh t0 (List.mem_cons_self t0 rest)
  rw [hx, h0]
  rfl

/-- Summing the dimension-0 extents of tensors that all have extent 1 there
counts the tensors. -/
lemma sum_map_heads {ts : List Tensor}
    (h1 : ∀ t ∈ ts, t.shape.getD 0 0 = 1) :
    (ts.map (fun t => t.shape.getD 0 0)).sum = ts.length := by
  induction ts with
  | nil => rfl
  | cons t ts ih =>
    simp only [List.map_cons, List.sum_cons, List.length_cons,
      h1 t (List.mem_cons_self t ts)]
    rw [ih (fun u hu => h1 u (List.mem_cons_of_mem t hu))]
    omega

/-- The dimension-0 extent of torch.cat along dimension 0 is the number of
inputs when every input has extent 1 there. -/
lemma cat_dim0_head_count {ts : List Tensor} {x : Tensor}
    (h : torch_cat ts 0 = some x)
    (h1 : ∀ t ∈ ts, t.shape.getD 0 0 = 1) :
    x.shape.getD 0 0 = ts.length := by
  obtain ⟨t0, rest, rfl, hd, hx⟩ := torch_cat_eq_some h
  rw [hx, getD_set_zero hd, sum_map_heads h1]

/-- A mover that fails one of the three checks leaves the accumulators
untouched: the source's continue, or its break with the for-else branch not
firing. -/
lemma processMover_snd_of_not_passes {fs : FileSys} {p : String} {s : Nat × Nat}
    {g : String × List Row} (hg : moverPasses fs p s g = false)
    (st : LoopState) : (processMover fs p s g st).2 = some st := by
  unfold moverPasses at hg
  unfold processMover
  by_cases h4 : g.2.length ≠ 4
  · rw [if_pos h4]
  · rw [if_neg h4]
    push_neg at h4
    rw [h4] at hg
    simp only [beq_self_eq_true, Bool.true_and] at hg
    have hnone : (loadFrames fs p s g.1 g.2).2 = none := by
      cases hl : (loadFrames fs p s g.1 g.2).2 with
      | none => rfl
      | some t => rw [hl] at hg; simp at hg
    rw [hnone]

/-- Case analysis of one loop iteration: it aborts with an exception, skips
the mover unchanged, or appends one stacked frame tensor (with extent 1 in
dimension 0), one label tensor and the mover id. -/
lemma processMover_spec (fs : FileSys) (p : String) (s : Nat × Nat)
    (g : String × List Row) (st : LoopState) :
    (processMover fs p s g st).2 = none ∨
    ((processMover fs p s g st).2 = some st ∧ moverPasses fs p s g = false) ∨
    (moverPasses fs p s g = true ∧ ∃ xt, xt.shape.getD 0 0 = 1 ∧
      (processMover fs p s g st).2 =
        some ⟨st.x_tensors ++ [xt],
              st.y_hat_tensors ++ [Tensor.mk [1, 1] [labelOf g.2]],
              st.mover_ids ++ [g.1]⟩) := by
  unfold processMover moverPasses
  by_cases h4 : g.2.length ≠ 4
  · right; left
    constructor
    · rw [if_pos h4]
    · simp [h4]
  · rw [if_neg h4]
    push_neg at h4
    cases hlf : (loadFrames fs p s g.1 g.2).2 with
    | none => right; left; simp [h4, hlf]
    | some tensors =>
      cases hcat : torch_cat tensors 2 with
      | none => left; simp [hlf, hcat]
      | some xt =>
        right; right
        refine ⟨by simp [h4, hlf], xt, ?_, by simp [hlf, hcat]⟩
        exact cat_dim2_head_one (loadFrames_some_shapes fs p s g.1 g.2 tensors hlf) hcat

/-- When every mover in the remaining list is skipped, the loop ends in the
state it started from. -/
lemma loop_snd_of_all_skipped (fs : FileSys) (p : String) (s : Nat × Nat) :
    ∀ (gs : List (String × List Row)) (st : LoopState),
      (∀ g ∈ gs, moverPasses fs p s g = false) →
      (get_dataset_loop fs p s gs st).2 = some st := by
  intro gs
  induction gs with
  | nil => intro st _; rfl
  | cons g gs ih =>
    intro st hall
    have hpm := processMover_snd_of_not_passes
      (hall g (List.mem_cons_self g gs)) st
    simp only [get_dataset_loop]
    rw [hpm]
    exact ih st (fun u hu => hall u (List.mem_cons_of_mem g hu))

/-- The loop distributes over list concatenation at the level of its
resulting accumulator state. -/
lemma loop_snd_append (fs : FileSys) (p : String) (s : Nat × Nat) :
    ∀ (xs ys : List (String × List Row)) (st : LoopState),
      (get_dataset_loop fs p s (xs ++ ys) st).2 =
        ((get_dataset_loop fs p s xs st).2).bind
          (fun st1 => (get_dataset_loop fs p s ys st1).2) := by
  intro xs
  induction xs with
  | nil => intro ys st; rfl
  | cons x xs ih =>
    intro ys st
    simp only [List.cons_append, get_dataset_loop]
    cases hpm : (processMover fs p s x st).2 with
    | none => rfl
    | some st1 => exact ih ys st1

/-- Removing a mover that every state skips does not change the loop's
resulting accumulator state. -/
lemma loop_snd_removal {fs : FileSys} {p : String} {s : Nat × Nat}
    {g : String × List Row}
    (hg : ∀ st0, (processMover fs p s g st0).2 = some st0)
    (gp gq : List (String × List Row)) (st : LoopState) :
    (get_dataset_loop fs p s (gp ++ g :: gq) st).2 =
      (get_dataset_loop fs p s (gp ++ gq) st).2 := by
  rw [loop_snd_append, loop_snd_append]
  cases (get_dataset_loop fs p s gp st).2 with
  | none => rfl
  | some st1 =>
    simp only [Option.some_bind]
    simp only [get_dataset_loop]
    rw [hg st1]

/-- Removing a mover that every state skips does not change get_dataset's
returned value (only the printed diagnostics). -/
lemma get_dataset_snd_removal {fs : FileSys} {p : String} {s : Nat × Nat}
    {g : String × List Row}
    (hg : ∀ st0, (processMover fs p s g st0).2 = some st0)
    (gp gq : List (String × List Row)) :
    (get_dataset (gp ++ g :: gq) fs p s).2 = (get_dataset (gp ++ gq) fs p s).2 := by
  simp only [get_dataset]
  rw [loop_snd_removal hg]

/-- When every mover fails a check, get_dataset reaches torch.concat with
empty accumulators and the call raises. -/
lemma get_dataset_none_of_all_fail {df : List (String × List Row)}
    {fs : FileSys} {p : String} {s : Nat × Nat}
    (h : ∀ g ∈ df, moverPasses fs p s g = false) :
    (get_dataset df fs p s).2 = none := by
  simp only [get_dataset]
  rw [loop_snd_of_all_skipped fs p s df ⟨[], [], []⟩ h]
  rfl

/-- Invariant of the mover loop: the accumulators grow by exactly one entry
per passing mover, in order, and every accumulated stack tensor has extent 1
in dimension 0. -/
lemma loop_spec (fs : FileSys) (p : String) (s : Nat × Nat) :
    ∀ (gs : List (String × List Row)) (st st' : LoopState),
      (get_dataset_loop fs p s gs st).2 = some st' →
      st'.mover_ids = st.mover_ids ++ ((gs.filter (moverPasses fs p s)).map Prod.fst) ∧
      st'.x_tensors.length = st.x_tensors.length + (gs.filter (moverPasses fs p s)).length ∧
      st'.y_hat_tensors.length = st.y_hat_tensors.length + (gs.filter (moverPasses fs p s)).length ∧
      (∀ t ∈ st'.x_tensors, t ∈ st.x_tensors ∨ t.shape.getD 0 0 = 1) ∧
      (∀ t ∈ st'.y_hat_tensors, t ∈ st.y_hat_tensors ∨ t.shape.getD 0 0 = 1) := by
  intro gs
  induction gs with
  | nil =>
    intro st st' h
    simp only [get_dataset_loop, Option.some.injEq] at h
    subst h
    exact ⟨by simp, by simp, by simp,
      fun t ht => Or.inl ht, fun t ht => Or.inl ht⟩
  | cons g gs ih =>
    intro st st' h
    simp only [get_dataset_loop] at h
    rcases processMover_spec fs p s g st with hpm | ⟨hpm, hskip⟩ | ⟨hpass, xt, hxt, hpm⟩
    · rw [hpm] at h; cases h
    · rw [hpm] at h
      have hfc : (g :: gs).filter (moverPasses fs p s) = gs.filter (moverPasses fs p s) := by
        simp [List.filter_cons, hskip]
      rw [hfc]
      exact ih st st' h
    · rw [hpm] at h
      obtain ⟨hids, hx, hy, hmx, hmy⟩ := ih _ st' h
      have hfc : (g :: gs).filter (moverPasses fs p s) =
          g :: gs.filter (moverPasses fs p s) := by
        simp [List.filter_cons, hpass]
      rw [hfc]
      refine ⟨?_, ?_, ?_, ?_, ?_⟩
      · rw [hids]; simp
      · simp only [List.length_cons]
        simp at hx
        omega
      · simp only [List.length_cons]
        simp at hy
        omega
      · intro t ht
        rcases hmx t ht with ht' | ht'
        · rcases List.mem_append.mp ht' with h1 | h1
          · exact Or.inl h1
          · right
            rw [List.mem_singleton.mp h1]
            exact hxt
        · exact Or.inr ht'
      · intro t ht
        rcases hmy t ht with ht' | ht'
        · rcases List.mem_append.mp ht' with h1 | h1
          · exact Or.inl h1
          · right
            rw [List.mem_singleton.mp h1]
            rfl
        · exact Or.inr ht'

/-- Inversion of a successful get_dataset run: the returned mover ids are
exactly the first components of the passing groups, in order, and the
dataset length is their count. -/
lemma get_dataset_some_spec {df : List (String × List Row)} {fs : FileSys}
    {p : String} {s : Nat × Nat} {ds : TensorDataset} {ids : List String}
    (h : (get_dataset df fs p s).2 = some (ds, ids)) :
    ids = (df.filter (moverPasses fs p s)).map Prod.fst ∧
    datasetLen ds = (df.filter (moverPasses fs p s)).length := by
  simp only [get_dataset] at h
  rw [Option.bind_eq_some] at h
  obtain ⟨st, hst, hasm⟩ := h
  unfold assemble at hasm
  rw [Option.bind_eq_some] at hasm
  obtain ⟨x, hx, hasm⟩ := hasm
  rw [Option.bind_eq_some] at hasm
  obtain ⟨y, hy, hasm⟩ := hasm
  rw [Option.map_eq_some'] at hasm
  obtain ⟨ds0, hds0, heq⟩ := hasm
  injection heq with h1 h2
  subst h1
  subst h2
  unfold tensorDataset at hds0
  split at hds0
  case isFalse => cases hds0
  case isTrue hguard =>
    injection hds0 with hds0
    subst hds0
    obtain ⟨hids, hxlen, _, hmx, _⟩ := loop_spec fs p s df ⟨[], [], []⟩ st hst
    simp only [List.nil_append] at hids
    simp at hxlen
    refine ⟨hids, ?_⟩
    have hheads : ∀ t ∈ st.x_tensors, t.shape.getD 0 0 = 1 := by
      intro t ht
      rcases hmx t ht with h1 | h1
      · cases h1
      · exact h1
    have : datasetLen ⟨x, y⟩ = st.x_tensors.length := cat_dim0_head_count hx hheads
    rw [this, hxlen]

/-- With an image_shape whose first entry differs from 1, the channel-count
comparison of the shape test fails on every decoded frame, so no mover
passes. -/
lemma moverPasses_false_of_fst_ne_one {fs : FileSys} {p : String}
    {s : Nat × Nat} (hs : s.1 ≠ 1) (g : String × List Row) :
    moverPasses fs p s g = false := by
  unfold moverPasses
  cases hl : (loadFrames fs p s g.1 g.2).2 with
  | none => simp
  | some ts =>
    cases hg2 : g.2 with
    | nil => simp [hg2]
    | cons r rs =>
      rw [hg2] at hl
      exact absurd (loadFrames_some_fst_eq_one fs p s g.1 r rs ts hl) hs

/-- Rows whose file opens and whose frame passes the shape test are walked
through by the inner loop without adding diagnostics, so a later break
decides the whole group's fate. -/
lemma loadFrames_prefix_none (fs : FileSys) (p : String) (s : Nat × Nat)
    (m : String) :
    ∀ (pre rest : List Row),
      (∀ r ∈ pre, rowFound fs p r = true ∧ rowShapeOk fs p s r = true) →
      (loadFrames fs p s m rest).2 = none →
      loadFrames fs p s m (pre ++ rest) = ((loadFrames fs p s m rest).1, none) := by
  intro pre
  induction pre with
  | nil =>
    intro rest _ hnone
    rw [List.nil_append, ← hnone]
  | cons r pre ih =>
    intro rest hok hnone
    obtain ⟨hf, hsh⟩ := hok r (List.mem_cons_self r pre)
    obtain ⟨img, hfs⟩ := Option.isSome_iff_exists.mp hf
    have hc : ¬((toTensor img).shape.getD 0 0 ≠ s.1 ∨
        (toTensor img).shape.getD 1 0 ≠ s.2) := by
      unfold rowShapeOk at hsh
      rw [hfs] at hsh
      exact of_decide_eq_true hsh
    have ihr := ih rest (fun u hu => hok u (List.mem_cons_of_mem r hu)) hnone
    rw [List.cons_append]
    simp only [loadFrames, hfs]
    rw [if_neg hc, ihr]
    rfl

/-- The inner loop on a group whose head file is missing: one diagnostic and
a break. -/
lemma loadFrames_missing (fs : FileSys) (p : String) (s : Nat × Nat)
    (m : String) (bad : Row) (rest : List Row)
    (h : fs (p ++ bad.file_name) = none) :
    loadFrames fs p s m (bad :: rest) = ([notFoundMsg m (p ++ bad.file_name)], none) := by
  simp only [loadFrames, h]

/-- The inner loop on a group whose head frame fails the shape test: a
silent break. -/
lemma loadFrames_shape_bad (fs : FileSys) (p : String) (s : Nat × Nat)
    (m : String) (bad : Row) (rest : List Row) (img : PILImage)
    (h : fs (p ++ bad.file_name) = some img)
    (hc : (toTensor img).shape.getD 0 0 ≠ s.1 ∨
      (toTensor img).shape.getD 1 0 ≠ s.2) :
    loadFrames fs p s m (bad :: rest) = ([], none) := by
  simp only [loadFrames, h]
  rw [if_pos hc]

/-- Membership after key insertion: either the inserted key or an old
element. -/
lemma mem_insertKey {x k : String} :
    ∀ {l : List String}, x ∈ insertKey k l → x = k ∨ x ∈ l := by
  intro l
  induction l with
  | nil =>
    intro h
    simp only [insertKey] at h
    exact Or.inl (List.mem_singleton.mp h)
  | cons q ks ih =>
    intro h
    simp only [insertKey] at h
    split at h
    · rcases List.mem_cons.mp h with rfl | h2
      · exact Or.inl rfl
      · exact Or.inr h2
    · split at h
      · exact Or.inr h
      · rcases List.mem_cons.mp h with rfl | h2
        · exact Or.inr (List.mem_cons_self _ _)
        · rcases ih h2 with h3 | h3
          · exact Or.inl h3
          · exact Or.inr (List.mem_cons_of_mem q h3)

/-- Inserting a key into a strictly ascending key list keeps it strictly
ascending. -/
lemma sorted_insertKey {k : String} :
    ∀ {l : List String}, l.Sorted (· < ·) → (insertKey k l).Sorted (· < ·) := by
  intro l
  induction l with
  | nil => intro _; simp [insertKey]
  | cons q ks ih =>
    intro h
    rw [List.sorted_cons] at h
    obtain ⟨hq, hks⟩ := h
    simp only [insertKey]
    split
    · rename_i hlt
      rw [List.sorted_cons]
      refine ⟨?_, List.sorted_cons.mpr ⟨hq, hks⟩⟩
      intro b hb
      rcases List.mem_cons.mp hb with rfl | hb2
      · exact hlt
      · exact lt_trans hlt (hq b hb2)
    · split
      · exact List.sorted_cons.mpr ⟨hq, hks⟩
      · rename_i hnlt hne
        have hqk : q < k := lt_of_le_of_ne (le_of_not_lt hnlt) (fun hh => hne hh.symm)
        rw [List.sorted_cons]
        refine ⟨?_, ih hks⟩
        intro b hb
        rcases mem_insertKey hb with rfl | hb2
        · exact hqk
        · exact hq b hb2

/-- The key list built by repeated insertion is strictly ascending. -/
lemma sorted_sortedKeys (l : List String) : (sortedKeys l).Sorted (· < ·) := by
  induction l with
  | nil => simp [sortedKeys]
  | cons a l ih => exact sorted_insertKey ih

/-- Projecting the keys back out of key-indexed pairs. -/
lemma map_fst_pairs (ks : List String) (f : String → List Row) :
    (ks.map (fun k => (k, f k))).map Prod.fst = ks := by
  induction ks with
  | nil => rfl
  | cons k ks ih => simp [ih]

/-- The group keys of get_dataframe are strictly ascending, as pandas
groupby with its default sort=True guarantees. -/
lemma get_dataframe_sorted_fst (R B : List CsvRow) :
    ((get_dataframe R B).map Prod.fst).Sorted (· < ·) := by
  simp only [get_dataframe]
  rw [map_fst_pairs]
  exact sorted_sortedKeys _

/-- Every row of a get_dataframe group carries the group's key and came,
with its injected label, from the matching lookup CSV. -/
lemma get_dataframe_mem_spec {R B : List CsvRow} {kg : String × List Row}
    (h : kg ∈ get_dataframe R B) :
    ∀ r ∈ kg.2, r.mover_id = kg.1 ∧
      ((r.label = 1 ∧ (⟨r.mover_id, r.file_name⟩ : CsvRow) ∈ R) ∨
       (r.label = 0 ∧ (⟨r.mover_id, r.file_name⟩ : CsvRow) ∈ B)) := by
  simp only [get_dataframe] at h
  rw [List.mem_map] at h
  obtain ⟨k, hk, rfl⟩ := h
  intro r hr
  rw [List.mem_filter] at hr
  obtain ⟨hmem, hid⟩ := hr
  refine ⟨of_decide_eq_true hid, ?_⟩
  rcases List.mem_append.mp hmem with h1 | h1
  · rw [List.mem_map] at h1
    obtain ⟨a, ha, rfl⟩ := h1
    exact Or.inl ⟨rfl, ha⟩
  · rw [List.mem_map] at h1
    obtain ⟨a, ha, rfl⟩ := h1
    exact Or.inr ⟨rfl, ha⟩

/-- Incrementing one entry preserves the length. -/
lemma addOneAt_length (l : List Nat) (i : Nat) : (addOneAt l i).length = l.length := by
  simp [addOneAt]

/-- Distributing a remainder preserves the length. -/
lemma distributeRem_length (l : List Nat) : ∀ r, (distributeRem l r).length = l.length := by
  intro r
  induction r with
  | zero => rfl
  | succ r ih => simp [distributeRem, addOneAt_length, ih]

/-- Incrementing an in-range entry adds one to the sum. -/
lemma addOneAt_sum : ∀ {l : List Nat} {i : Nat}, i < l.length →
    (addOneAt l i).sum = l.sum + 1 := by
  intro l
  induction l with
  | nil => intro i h; cases h
  | cons a l ih =>
    intro i h
    cases i with
    | zero =>
      simp [addOneAt, List.sum_cons]
      omega
    | succ i =>
      have h' : i < l.length := by simpa using h
      have hh := ih h'
      simp only [addOneAt, List.getD_cons_succ, List.set_cons_succ,
        List.sum_cons] at hh ⊢
      omega

/-- Distributing a remainder over a nonempty list adds it to the sum. -/
lemma distributeRem_sum {l : List Nat} (hl : l ≠ []) :
    ∀ r, (distributeRem l r).sum = l.sum + r := by
  intro r
  induction r with
  | zero => rfl
  | succ r ih =>
    have hlen : r % l.length < (distributeRem l r).length := by
      rw [distributeRem_length]
      exact Nat.mod_lt _ (List.length_pos.mpr hl)
    simp only [distributeRem, addOneAt_sum hlen, ih]
    omega

/-- Inversion of a successful two-way fractional split: the sizes sum to n
and the training size is the floor of n times the first fraction, plus at
most the single leftover item. -/
lemma random_split_sizes_two {n : Nat} {s0 s1 : ℚ} {lens : List Nat}
    (h : random_split_sizes n [s0, s1] = some lens) :
    (0 ≤ s0 ∧ s0 ≤ 1) ∧ lens.sum = n ∧
    (lens = [(⌊s0 * (n : ℚ)⌋).toNat, (⌊s1 * (n : ℚ)⌋).toNat] ∨
     lens = [(⌊s0 * (n : ℚ)⌋).toNat + 1, (⌊s1 * (n : ℚ)⌋).toNat]) := by
  unfold random_split_sizes at h
  split at h
  case isFalse => cases h
  case isTrue hguard =>
    obtain ⟨hsum, hb⟩ := hguard
    have hs0 : 0 ≤ s0 ∧ s0 ≤ 1 := hb s0 (by simp)
    have hs1 : 0 ≤ s1 ∧ s1 ≤ 1 := hb s1 (by simp)
    simp only [List.sum_cons, List.sum_nil, add_zero] at hsum
    dsimp only at h
    simp only [List.map_cons, List.map_nil, List.sum_cons, List.sum_nil,
      add_zero] at h
    set B0 := (⌊s0 * (n : ℚ)⌋).toNat with hB0
    set B1 := (⌊s1 * (n : ℚ)⌋).toNat with hB1
    have hc0 : ((B0 : ℤ)) = ⌊s0 * (n : ℚ)⌋ :=
      Int.toNat_of_nonneg (Int.floor_nonneg.mpr (mul_nonneg hs0.1 (by positivity)))
    have hc1 : ((B1 : ℤ)) = ⌊s1 * (n : ℚ)⌋ :=
      Int.toNat_of_nonneg (Int.floor_nonneg.mpr (mul_nonneg hs1.1 (by positivity)))
    have hf0 : (B0 : ℚ) ≤ s0 * n := by
      have hfl := Int.floor_le (s0 * (n : ℚ))
      rw [← hc0] at hfl
      exact_mod_cast hfl
    have hg0 : s0 * n < (B0 : ℚ) + 1 := by
      have hfl := Int.lt_floor_add_one (s0 * (n : ℚ))
      rw [← hc0] at hfl
      exact_mod_cast hfl
    have hf1 : (B1 : ℚ) ≤ s1 * n := by
      have hfl := Int.floor_le (s1 * (n : ℚ))
      rw [← hc1] at hfl
      exact_mod_cast hfl
    have hg1 : s1 * n < (B1 : ℚ) + 1 := by
      have hfl := Int.lt_floor_add_one (s1 * (n : ℚ))
      rw [← hc1] at hfl
      exact_mod_cast hfl
    have hmuls : s0 * (n : ℚ) + s1 * (n : ℚ) = (n : ℚ) := by
      rw [← add_mul, hsum, one_mul]
    have hlbn : B0 + B1 ≤ n := by
      have hq : (B0 : ℚ) + (B1 : ℚ) ≤ (n : ℚ) := by rw [← hmuls]; linarith
      exact_mod_cast hq
    have hubn : n < B0 + B1 + 2 := by
      have hq : (n : ℚ) < (B0 : ℚ) + (B1 : ℚ) + 2 := by rw [← hmuls]; linarith
      exact_mod_cast hq
    have hrem : n - (B0 + B1) = 0 ∨ n - (B0 + B1) = 1 := by omega
    rcases hrem with hr | hr <;> rw [hr] at h
    · rw [show distributeRem [B0, B1] 0 = [B0, B1] from rfl] at h
      split at h
      case isFalse => cases h
      case isTrue hsn =>
        injection h with h
        subst h
        exact ⟨hs0, hsn, Or.inl rfl⟩
    · rw [show distributeRem [B0, B1] 1 = [B0 + 1, B1] from rfl] at h
      split at h
      case isFalse => cases h
      case isTrue hsn =>
        injection h with h
        subst h
        exact ⟨hs0, hsn, Or.inr rfl⟩

/-- With nonnegative fractions summing to one, the fractional split always
succeeds: the computed sizes pass torch's final sum check. -/
lemma random_split_sizes_total {n : Nat} {s0 s1 : ℚ}
    (h0 : 0 ≤ s0) (h1 : 0 ≤ s1) (hsum : s0 + s1 = 1) :
    ∃ a b : Nat, random_split_sizes n [s0, s1] = some [a, b] := by
  have hs0le : s0 ≤ 1 := by linarith
  have hs1le : s1 ≤ 1 := by linarith
  set B0 := (⌊s0 * (n : ℚ)⌋).toNat with hB0
  set B1 := (⌊s1 * (n : ℚ)⌋).toNat with hB1
  have hc0 : ((B0 : ℤ)) = ⌊s0 * (n : ℚ)⌋ :=
    Int.toNat_of_nonneg (Int.floor_nonneg.mpr (mul_nonneg h0 (by positivity)))
  have hc1 : ((B1 : ℤ)) = ⌊s1 * (n : ℚ)⌋ :=
    Int.toNat_of_nonneg (Int.floor_nonneg.mpr (mul_nonneg h1 (by positivity)))
  have hf0 : (B0 : ℚ) ≤ s0 * n := by
    have hfl := Int.floor_le (s0 * (n : ℚ))
    rw [← hc0] at hfl
    exact_mod_cast hfl
  have hf1 : (B1 : ℚ) ≤ s1 * n := by
    have hfl := Int.floor_le (s1 * (n : ℚ))
    rw [← hc1] at hfl
    exact_mod_cast hfl
  have hmuls : s0 * (n : ℚ) + s1 * (n : ℚ) = (n : ℚ) := by
    rw [← add_mul, hsum, one_mul]
  have hlbn : B0 + B1 ≤ n := by
    have hq : (B0 : ℚ) + (B1 : ℚ) ≤ (n : ℚ) := by rw [← hmuls]; linarith
    exact_mod_cast hq
  have hsn : (distributeRem [B0, B1] (n - (B0 + B1))).sum = n := by
    rw [distributeRem_sum (by simp)]
    simp only [List.sum_cons, List.sum_nil, add_zero]
    omega
  obtain ⟨a, b, hab⟩ := List.length_eq_two.mp
    (by rw [distributeRem_length]; rfl :
      (distributeRem [B0, B1] (n - (B0 + B1))).length = 2)
  refine ⟨a, b, ?_⟩
  unfold random_split_sizes
  rw [if_pos]
  · dsimp only
    simp only [List.map_cons, List.map_nil, List.sum_cons, List.sum_nil, add_zero]
    rw [← hB0, ← hB1, if_pos hsn, hab]
  · constructor
    · simp [hsum]
    · intro f hf
      rcases List.mem_cons.mp hf with rfl | hf2
      · exact ⟨h0, hs0le⟩
      · rw [List.mem_singleton.mp hf2]
        exact ⟨h1, hs1le⟩

/-!
The claims.
-/

/-- C1: evaluation of get_dataset at a mover whose four frames all exist
and have exactly the configured dimensions, here image_shape = (2, 2) with
2 x 2 images.  The claim promises one Sample of stacked shape (1, 1, 4H, W);
the code instead compares the tensor's channel extent 1 against
image_shape.1 = 2, breaks on every frame, accumulates nothing, and raises
at the empty concatenation: no Sample and no dataset at all. -/
theorem c1_stacking_claim_fails_on_code :
    get_dataset exDf exFs "" (2, 2) = ([], none) := by decide

/-- C2: a mover group with a row count other than 4 produces no Sample,
prints the skip diagnostic naming the mover and the group length, the loop
continues, and the returned dataset equals the one computed without that
mover. -/
theorem c2_wrong_count_skipped_with_diagnostic (fs : FileSys) (p : String)
    (s : Nat × Nat) (m : String) (rows : List Row) (h : rows.length ≠ 4) :
    (∀ st, processMover fs p s (m, rows) st = ([skipMsg m rows.length], some st)) ∧
    (∀ gp gq, (get_dataset (gp ++ (m, rows) :: gq) fs p s).2 =
      (get_dataset (gp ++ gq) fs p s).2) := by
  have hloc : ∀ st, processMover fs p s (m, rows) st =
      ([skipMsg m rows.length], some st) := by
    intro st
    unfold processMover
    rw [if_pos h]
  exact ⟨hloc, fun gp gq =>
    get_dataset_snd_removal (fun st0 => by rw [hloc st0]) gp gq⟩

/-- C2 witness: a one-row mover is skipped with the diagnostic and removing
it leaves the result unchanged. -/
theorem c2_witness :
    processMover exFs "" (1, 2) ("m2", [⟨"m2", "a.png", 0⟩]) ⟨[], [], []⟩ =
      ([skipMsg "m2" 1], some ⟨[], [], []⟩) ∧
    (get_dataset [("m2", [⟨"m2", "a.png", 0⟩])] exFs "" (1, 2)).2 =
      (get_dataset [] exFs "" (1, 2)).2 := by
  have hc2 := c2_wrong_count_skipped_with_diagnostic exFs "" (1, 2) "m2"
    [⟨"m2", "a.png", 0⟩] (by decide)
  exact ⟨hc2.1 ⟨[], [], []⟩, hc2.2 [] []⟩

/-- C3: when one of a 4-row mover's files is missing (after any prefix of
rows that load and pass the shape test), the mover contributes nothing, the
only diagnostic names the mover and the missing path, and the returned
dataset equals the one computed without that mover. -/
theorem c3_missing_image_all_or_nothing (fs : FileSys) (p : String)
    (s : Nat × Nat) (m : String) (pre : List Row) (bad : Row) (rest : List Row)
    (hlen : (pre ++ bad :: rest).length = 4)
    (hpre : ∀ r ∈ pre, rowFound fs p r = true ∧ rowShapeOk fs p s r = true)
    (hbad : rowFound fs p bad = false) :
    (∀ st, processMover fs p s (m, pre ++ bad :: rest) st =
      ([notFoundMsg m (p ++ bad.file_name)], some st)) ∧
    (∀ gp gq, (get_dataset (gp ++ (m, pre ++ bad :: rest) :: gq) fs p s).2 =
      (get_dataset (gp ++ gq) fs p s).2) := by
  have hfs : fs (p ++ bad.file_name) = none := by
    unfold rowFound at hbad
    cases hq : fs (p ++ bad.file_name) with
    | none => rfl
    | some img => rw [hq] at hbad; simp at hbad
  have hbadlf : loadFrames fs p s m (bad :: rest) =
      ([notFoundMsg m (p ++ bad.file_name)], none) :=
    loadFrames_missing fs p s m bad rest hfs
  have hall : loadFrames fs p s m (pre ++ bad :: rest) =
      ([notFoundMsg m (p ++ bad.file_name)], none) := by
    have hpn := loadFrames_prefix_none fs p s m pre (bad :: rest) hpre
      (by rw [hbadlf])
    rw [hbadlf] at hpn
    exact hpn
  have hloc : ∀ st, processMover fs p s (m, pre ++ bad :: rest) st =
      ([notFoundMsg m (p ++ bad.file_name)], some st) := by
    intro st
    unfold processMover
    rw [if_neg (by simp [hlen])]
    rw [hall]
  exact ⟨hloc, fun gp gq =>
    get_dataset_snd_removal (fun st0 => by rw [hloc st0]) gp gq⟩

/-- C3 witness: the fixture mover with its first file replaced by a missing
one is dropped whole, with the missing-file diagnostic. -/
theorem c3_witness :
    processMover exFs "" (1, 2)
        ("m1", (⟨"m1", "zz.png", 1⟩ : Row) :: exRows.tail) ⟨[], [], []⟩ =
      ([notFoundMsg "m1" ("" ++ "zz.png")], some ⟨[], [], []⟩) ∧
    (get_dataset [("m1", (⟨"m1", "zz.png", 1⟩ : Row) :: exRows.tail)]
        exFs "" (1, 2)).2 =
      (get_dataset [] exFs "" (1, 2)).2 := by
  have hc3 := c3_missing_image_all_or_nothing exFs "" (1, 2) "m1" []
    ⟨"m1", "zz.png", 1⟩ exRows.tail (by decide) (by simp) (by decide)
  exact ⟨hc3.1 ⟨[], [], []⟩, hc3.2 [] []⟩

/-- C4: when one of a 4-row mover's frames decodes but fails the shape test
(after any prefix of rows that load and pass it), the mover contributes
nothing and, unlike the other two skip reasons, not a single diagnostic is
printed; the returned dataset equals the one computed without that mover. -/
theorem c4_shape_mismatch_silent_skip (fs : FileSys) (p : String)
    (s : Nat × Nat) (m : String) (pre : List Row) (bad : Row) (rest : List Row)
    (hlen : (pre ++ bad :: rest).length = 4)
    (hpre : ∀ r ∈ pre, rowFound fs p r = true ∧ rowShapeOk fs p s r = true)
    (hbadf : rowFound fs p bad = true)
    (hbads : rowShapeOk fs p s bad = false) :
    (∀ st, processMover fs p s (m, pre ++ bad :: rest) st = ([], some st)) ∧
    (∀ gp gq, (get_dataset (gp ++ (m, pre ++ bad :: rest) :: gq) fs p s).2 =
      (get_dataset (gp ++ gq) fs p s).2) := by
  obtain ⟨img, hfs⟩ := Option.isSome_iff_exists.mp hbadf
  have hcond : (toTensor img).shape.getD 0 0 ≠ s.1 ∨
      (toTensor img).shape.getD 1 0 ≠ s.2 := by
    unfold rowShapeOk at hbads
    rw [hfs] at hbads
    exact not_not.mp (of_decide_eq_false hbads)
  have hbadlf : loadFrames fs p s m (bad :: rest) = ([], none) :=
    loadFrames_shape_bad fs p s m bad rest img hfs hcond
  have hall : loadFrames fs p s m (pre ++ bad :: rest) = ([], none) := by
    have hpn := loadFrames_prefix_none fs p s m pre (bad :: rest) hpre
      (by rw [hbadlf])
    rw [hbadlf] at hpn
    exact hpn
  have hloc : ∀ st, processMover fs p s (m, pre ++ bad :: rest) st =
      ([], some st) := by
    intro st
    unfold processMover
    rw [if_neg (by simp [hlen])]
    rw [hall]
  exact ⟨hloc, fun gp gq =>
    get_dataset_snd_removal (fun st0 => by rw [hloc st0]) gp gq⟩

/-- C4 witness: with image_shape (1, 5) the fixture's first 2 x 2 frame
decodes but fails the height comparison; the mover vanishes silently. -/
theorem c4_witness :
    processMover exFs "" (1, 5) ("m1", exRows) ⟨[], [], []⟩ =
      ([], some ⟨[], [], []⟩) ∧
    (get_dataset [("m1", exRows)] exFs "" (1, 5)).2 =
      (get_dataset [] exFs "" (1, 5)).2 := by
  have hc4 := c4_shape_mismatch_silent_skip exFs "" (1, 5) "m1" []
    ⟨"m1", "a.png", 1⟩ exRows.tail (by decide) (by simp) (by decide) (by decide)
  exact ⟨hc4.1 ⟨[], [], []⟩, hc4.2 [] []⟩

/-- C5: when no mover group passes the count, load and shape checks, the
final torch.concat receives an empty list and the error propagates out of
get_dataset instead of an empty dataset being returned. -/
theorem c5_empty_survivors_error (df : List (String × List Row)) (fs : FileSys)
    (p : String) (s : Nat × Nat)
    (h : ∀ g ∈ df, moverPasses fs p s g = false) :
    (get_dataset df fs p s).2 = none :=
  get_dataset_none_of_all_fail h

/-- C5 witness: a grouping whose only mover has one row survives nothing and
get_dataset raises. -/
theorem c5_witness :
    moverPasses exFs "" (1, 2) ("m2", [(⟨"m2", "a.png", 0⟩ : Row)]) = false ∧
    (get_dataset [("m2", [(⟨"m2", "a.png", 0⟩ : Row)])] exFs "" (1, 2)).2 = none := by
  refine ⟨by decide, c5_empty_survivors_error _ exFs "" (1, 2) ?_⟩
  intro g hg
  rw [List.mem_singleton.mp hg]
  decide

/-- C6: a successful get_dataset returns as many samples as mover ids, both
equal to the number of groups passing all checks, and the id list is the
passing groups' keys in order, aligning the i-th id with the i-th sample. -/
theorem c6_sizes_align (df : List (String × List Row)) (fs : FileSys)
    (p : String) (s : Nat × Nat) (ds : TensorDataset) (ids : List String)
    (h : (get_dataset df fs p s).2 = some (ds, ids)) :
    datasetLen ds = ids.length ∧
    ids.length = (df.filter (moverPasses fs p s)).length ∧
    ids = (df.filter (moverPasses fs p s)).map Prod.fst := by
  obtain ⟨hids, hlen⟩ := get_dataset_some_spec h
  refine ⟨?_, ?_, hids⟩
  · rw [hlen, hids, List.length_map]
  · rw [hids, List.length_map]

/-- C6 witness: the fixture run under image_shape (1, 2) returns one sample,
one mover id, and the one passing group's key. -/
theorem c6_witness :
    datasetLen exDs = ["m1"].length ∧
    ["m1"].length = (exDf.filter (moverPasses exFs "" (1, 2))).length ∧
    ["m1"] = (exDf.filter (moverPasses exFs "" (1, 2))).map Prod.fst :=
  c6_sizes_align exDf exFs "" (1, 2) exDs ["m1"] (by decide)

/-- C7: whenever get_loaders' fractional split succeeds, the training and
validation sizes sum to the dataset length and the training size is within
one of round(n times the training fraction); the split always succeeds for
nonnegative fractions summing to 1; and concretely a dataset of 10 samples
under split (0.7, 0.3) yields sizes 7 and 3. -/
theorem c7_split_sizes :
    (∀ (n : Nat) (s0 s1 : ℚ) (a b : Nat),
      get_loaders_sizes n (s0, s1) = some (a, b) →
      a + b = n ∧ |(a : ℤ) - round ((n : ℚ) * s0)| ≤ 1) ∧
    (∀ (n : Nat) (s0 s1 : ℚ), 0 ≤ s0 → 0 ≤ s1 → s0 + s1 = 1 →
      ∃ a b, get_loaders_sizes n (s0, s1) = some (a, b)) ∧
    get_loaders_sizes 10 (7/10, 3/10) = some (7, 3) := by
  refine ⟨?_, ?_, ?_⟩
  · intro n s0 s1 a b h
    unfold get_loaders_sizes at h
    cases hr : random_split_sizes n [s0, s1] with
    | none => rw [hr] at h; cases h
    | some lens =>
      rw [hr] at h
      obtain ⟨⟨h0, h0le⟩, hsum, hcases⟩ := random_split_sizes_two hr
      have hc0 : (((⌊s0 * (n : ℚ)⌋).toNat : ℤ)) = ⌊s0 * (n : ℚ)⌋ :=
        Int.toNat_of_nonneg (Int.floor_nonneg.mpr (mul_nonneg h0 (by positivity)))
      have hx : (n : ℚ) * s0 = s0 * (n : ℚ) := mul_comm _ _
      have hfl1 : ⌊s0 * (n : ℚ)⌋ ≤ round (s0 * (n : ℚ)) := by
        rw [round_eq]
        exact Int.floor_mono (by linarith)
      have hfl2 : round (s0 * (n : ℚ)) ≤ ⌊s0 * (n : ℚ)⌋ + 1 := by
        rw [round_eq]
        have hmono : ⌊s0 * (n : ℚ) + 1 / 2⌋ ≤ ⌊s0 * (n : ℚ) + 1⌋ :=
          Int.floor_mono (by linarith)
        rwa [Int.floor_add_one] at hmono
      rcases hcases with rfl | rfl
      · have h' : some ((⌊s0 * (n : ℚ)⌋).toNat, (⌊s1 * (n : ℚ)⌋).toNat) =
            some (a, b) := h
        simp only [Option.some.injEq, Prod.mk.injEq] at h'
        obtain ⟨ha, hb⟩ := h'
        subst ha
        subst hb
        simp only [List.sum_cons, List.sum_nil, add_zero] at hsum
        refine ⟨hsum, ?_⟩
        rw [hx, abs_le]
        constructor
        · linarith [hfl2, hc0]
        · linarith [hfl1, hc0]
      · have h' : some ((⌊s0 * (n : ℚ)⌋).toNat + 1, (⌊s1 * (n : ℚ)⌋).toNat) =
            some (a, b) := h
        simp only [Option.some.injEq, Prod.mk.injEq] at h'
        obtain ⟨ha, hb⟩ := h'
        subst ha
        subst hb
        simp only [List.sum_cons, List.sum_nil, add_zero] at hsum
        refine ⟨hsum, ?_⟩
        rw [hx]
        push_cast
        rw [abs_le]
        constructor
        · linarith [hfl2, hc0]
        · linarith [hfl1, hc0]
  · intro n s0 s1 h0 h1 hsum
    obtain ⟨a, b, hab⟩ := random_split_sizes_total h0 h1 hsum
    refine ⟨a, b, ?_⟩
    unfold get_loaders_sizes
    rw [hab]
  · have h7 : ⌊((7 : ℚ) / 10) * (10 : ℚ)⌋ = 7 := by norm_num
    have h3 : ⌊((3 : ℚ) / 10) * (10 : ℚ)⌋ = 3 := by norm_num
    unfold get_loaders_sizes random_split_sizes
    norm_num [h7, h3]
    rfl

/-- C7 witness: the concrete 10-sample split instantiates the general size
law. -/
theorem c7_witness :
    7 + 3 = 10 ∧ |(7 : ℤ) - round ((10 : ℚ) * (7 / 10))| ≤ 1 :=
  c7_split_sizes.1 10 (7 / 10) (3 / 10) 7 3 c7_split_sizes.2.2

/-- C8 counterexample: a mover id occurring in both lookup CSVs produces a
single group holding rows with label 1 and label 0, refuting the claim that
every group's rows carry one label. -/
theorem c8_counterexample :
    ∃ kg ∈ get_dataframe [⟨"m", "a.png"⟩] [⟨"m", "b.png"⟩],
      ∃ r ∈ kg.2, ∃ q ∈ kg.2, r.label ≠ q.label := by
  have hdf : get_dataframe [⟨"m", "a.png"⟩] [⟨"m", "b.png"⟩] =
      [("m", [⟨"m", "a.png", 1⟩, ⟨"m", "b.png", 0⟩])] := by
    simp [get_dataframe, sortedKeys, insertKey]
  rw [hdf]
  exact ⟨("m", [⟨"m", "a.png", 1⟩, ⟨"m", "b.png", 0⟩]), by simp,
    ⟨"m", "a.png", 1⟩, by simp, ⟨"m", "b.png", 0⟩, by simp, by decide⟩

/-- C8 (amended): rows of the first CSV get label 1 and rows of the second
label 0 before pooling and grouping; provided no mover id occurs in both
CSVs, all rows of any one group carry the same label; and a produced
Sample's label is always read from the first row of its group. -/
theorem c8_labels_amended (R B : List CsvRow)
    (hdisj : ∀ a ∈ R, ∀ b ∈ B, a.mover_id ≠ b.mover_id) :
    (∀ kg ∈ get_dataframe R B, ∀ r ∈ kg.2,
      (r.label = 1 ∧ (⟨r.mover_id, r.file_name⟩ : CsvRow) ∈ R) ∨
      (r.label = 0 ∧ (⟨r.mover_id, r.file_name⟩ : CsvRow) ∈ B)) ∧
    (∀ kg ∈ get_dataframe R B, ∀ r ∈ kg.2, ∀ q ∈ kg.2, r.label = q.label) ∧
    (∀ (fs : FileSys) (p : String) (s : Nat × Nat) (m : String)
       (rows : List Row) (st st' : LoopState),
      (processMover fs p s (m, rows) st).2 = some st' →
      st' = st ∨ ∃ xt, st' = ⟨st.x_tensors ++ [xt],
        st.y_hat_tensors ++ [Tensor.mk [1, 1] [rows.headI.label]],
        st.mover_ids ++ [m]⟩) := by
  refine ⟨?_, ?_, ?_⟩
  · intro kg hkg r hr
    exact (get_dataframe_mem_spec hkg r hr).2
  · intro kg hkg r hr q hq
    obtain ⟨hrid, hrc⟩ := get_dataframe_mem_spec hkg r hr
    obtain ⟨hqid, hqc⟩ := get_dataframe_mem_spec hkg q hq
    rcases hrc with ⟨hl1, hm1⟩ | ⟨hl1, hm1⟩ <;>
      rcases hqc with ⟨hl2, hm2⟩ | ⟨hl2, hm2⟩
    · rw [hl1, hl2]
    · exact absurd (hrid.trans hqid.symm) (hdisj _ hm1 _ hm2)
    · exact absurd (hqid.trans hrid.symm) (hdisj _ hm2 _ hm1)
    · rw [hl1, hl2]
  · intro fs p s m rows st st' h
    unfold processMover at h
    split at h
    · have h' : some st = some st' := h
      injection h' with h'
      exact Or.inl h'.symm
    · split at h
      · have h' : some st = some st' := h
        injection h' with h'
        exact Or.inl h'.symm
      · split at h
        · cases h
        · rename_i xt _
          have h' : some (⟨st.x_tensors ++ [xt],
              st.y_hat_tensors ++ [Tensor.mk [1, 1] [labelOf rows]],
              st.mover_ids ++ [m]⟩ : LoopState) = some st' := h
          injection h' with h'
          exact Or.inr ⟨xt, h'.symm⟩

/-- C8 witness: with disjoint lookup tables the two rows of the shared
group of mover m agree on their label. -/
theorem c8_witness :
    (⟨"m", "a.png", 1⟩ : Row).label = (⟨"m", "b.png", 1⟩ : Row).label :=
  (c8_labels_amended [⟨"m", "a.png"⟩, ⟨"m", "b.png"⟩] [⟨"n", "c.png"⟩]
      (by decide)).2.1
    ("m", [⟨"m", "a.png", 1⟩, ⟨"m", "b.png", 1⟩])
    (by
      rw [show get_dataframe [⟨"m", "a.png"⟩, ⟨"m", "b.png"⟩] [⟨"n", "c.png"⟩] =
          [("m", [⟨"m", "a.png", 1⟩, ⟨"m", "b.png", 1⟩]),
           ("n", [⟨"n", "c.png", 0⟩])] from by
        simp [get_dataframe, sortedKeys, insertKey]]
      simp)
    ⟨"m", "a.png", 1⟩ (by decide) ⟨"m", "b.png", 1⟩ (by decide)

/-- C9: the shape test compares the tensor's dimension 0 (the channel
count, always 1 after grayscale conversion) with image_shape.1, so a
dataset can only be produced when image_shape.1 = 1; under the default
image_shape (30, 30) every mover is skipped and get_dataset always raises
at the empty concatenation, whatever the grouping and image directory. -/
theorem c9_channel_dim_check :
    (∀ (df : List (String × List Row)) (fs : FileSys) (p : String)
       (s : Nat × Nat) (ds : TensorDataset) (ids : List String),
      (get_dataset df fs p s).2 = some (ds, ids) → s.1 = 1) ∧
    (∀ (df : List (String × List Row)) (fs : FileSys) (p : String),
      (get_dataset df fs p (30, 30)).2 = none) := by
  constructor
  · intro df fs p s ds ids h
    by_contra hs1
    have hall : ∀ g ∈ df, moverPasses fs p s g = false :=
      fun g _ => moverPasses_false_of_fst_ne_one hs1 g
    rw [get_dataset_none_of_all_fail hall] at h
    cases h
  · intro df fs p
    exact get_dataset_none_of_all_fail
      (fun g _ => moverPasses_false_of_fst_ne_one (by decide) g)

/-- C9 witness: the fixture succeeds under image_shape (1, 2), whose first
entry is forced to 1, and raises under the default (30, 30). -/
theorem c9_witness :
    ((1, 2) : Nat × Nat).1 = 1 ∧
    (get_dataset exDf exFs "" (30, 30)).2 = none :=
  ⟨c9_channel_dim_check.1 exDf exFs "" (1, 2) exDs ["m1"] (by decide),
   c9_channel_dim_check.2 exDf exFs ""⟩

/-- C10: pandas groupby sorts the group keys, so the mover ids returned by
a successful get_dataset over a get_dataframe grouping are strictly
ascending, making the sample order deterministic for fixed inputs. -/
theorem c10_mover_ids_sorted (R B : List CsvRow) (fs : FileSys) (p : String)
    (s : Nat × Nat) (ds : TensorDataset) (ids : List String)
    (h : (get_dataset (get_dataframe R B) fs p s).2 = some (ds, ids)) :
    ids.Sorted (· < ·) := by
  obtain ⟨hids, _⟩ := get_dataset_some_spec h
  rw [hids]
  have hsub : List.Sublist
      (((get_dataframe R B).filter (moverPasses fs p s)).map Prod.fst)
      ((get_dataframe R B).map Prod.fst) :=
    (List.filter_sublist _).map Prod.fst
  exact List.Pairwise.sublist hsub (get_dataframe_sorted_fst R B)

/-- C10 witness: running the pipeline end to end on the fixture CSV rows
yields the sorted id list. -/
theorem c10_witness : (["m1"] : List String).Sorted (· < ·) :=
  c10_mover_ids_sorted exCsv [] exFs "" (1, 2) exDs ["m1"]
    (by
      rw [show get_dataframe exCsv [] = [("m1", exRows)] from by
        simp [get_dataframe, sortedKeys, insertKey, exCsv, exRows]]
      decide)

end StarShooter
